import Mathlib

/-!
Verification of the FormulaicSquid/Scripts repository against its
natural-language specification.

The repository is a collection of Python batch scripts that process music
metadata CSV files (YouTube playlist extraction, MusicBrainz enrichment,
studio-album resolution, sorting) plus a YouTube-to-Spotify playlist
importer.  This file gives a shallow embedding of the row-processing
functions those scripts implement and proves (or refutes) the spec claims
about them.

Conventions of the embedding:
* a CSV row (a Python dict produced by `csv.DictReader`) is an association
  list `Row := List (String × String)` with first-match lookup and
  in-place update, mirroring dict key order;
* network results are passed in as explicit oracle arguments: an HTTP
  request that raises or returns data becomes a constructor of a small
  response type, so each function is a pure function of its row and of the
  responses the network would have produced;
* Python `float` time values are modelled as rationals; `time.sleep` is
  modelled by advancing the modelled clock;
* Python string predicates (`str.strip`, the `\s` regex class) use the
  Unicode whitespace set of CPython's `str` regexes.
-/

/-- The Python `\s` / `str.strip` whitespace set for `str` patterns
(ASCII whitespace, the C1 separators, and the Unicode space characters). -/
def pySpace (c : Char) : Bool :=
  let n := c.toNat
  (9 ≤ n && n ≤ 13) || (28 ≤ n && n ≤ 31) || n = 32 || n = 0x85 || n = 0xa0 ||
    n = 0x1680 || (0x2000 ≤ n && n ≤ 0x200a) || n = 0x2028 || n = 0x2029 ||
    n = 0x202f || n = 0x205f || n = 0x3000

/-- `str.strip()` on a character list: drop whitespace from both ends. -/
def pyStripL (s : List Char) : List Char :=
  (((s.dropWhile pySpace).reverse).dropWhile pySpace).reverse

/-- Python `str.strip()`. -/
def pyStrip (s : String) : String :=
  (pyStripL s.toList).asString

/-- Python `str.lower()`, character by character.  `Char.toLower`
lowercases ASCII letters; Python also lowercases non-ASCII letters, but no
theorem below depends on which letters the lowercasing touches. -/
def pyLower (s : String) : String :=
  (s.toList.map Char.toLower).asString

/-- A CSV row: a Python dict from column name to cell value, as an
association list in key order (keys are unique in rows read by
`csv.DictReader`). -/
abbrev Row : Type := List (String × String)

/-- `row.get(k, '')`: first value bound to `k`, defaulting to `""`. -/
def Row.get (r : Row) (k : String) : String :=
  match r.find? (fun p => p.1 = k) with
  | some p => p.2
  | none => ""

/-- `row[k] = v`: update the binding in place (dicts keep the key's
position), appending a new binding when the key is absent. -/
def Row.set (r : Row) (k v : String) : Row :=
  if (List.any r (fun p => p.1 = k)) then
    r.map (fun p => if p.1 = k then (k, v) else p)
  else
    r ++ [(k, v)]

/-- The column names of a row (`row.keys()`), used as CSV fieldnames. -/
def Row.fieldnames (r : Row) : List String := r.map Prod.fst

namespace MusicSorter

/-!
`MusicSorter.py` (`MusicSorter.sort_key`, `MusicSorter.process_csv`) and
its copies `music_pipeline.MusicSorter.sort_key` and
`youtube_music_processor.CSVManager.sort_tracks`: sort rows by
(lowercased artist, empty-album-last flag, lowercased album, lowercased
track) with Python's stable `sorted`.
-/

/-- `MusicSorter.sort_key`: the tuple
`(artist_lower, has_album, album_lower, track_lower)`. -/
def sort_key (entry : Row) : String × Nat × String × String :=
  let artist := pyLower (pyStrip (entry.get "artist"))
  let album := pyStrip (entry.get "album")
  let track := pyLower (pyStrip (entry.get "track"))
  let has_album : Nat := if album ≠ "" then 0 else 1
  let album_lower := if album ≠ "" then pyLower album else ""
  (artist, has_album, album_lower, track)

/-- The sort key as a lexicographically ordered tuple, mirroring Python's
lexicographic tuple comparison. -/
def sort_key_lex (entry : Row) : String ×ₗ ℕ ×ₗ String ×ₗ String :=
  let k := sort_key entry
  toLex (k.1, toLex (k.2.1, toLex (k.2.2.1, k.2.2.2)))

/-- The `≤` comparison Python's `sorted` induces on rows via `sort_key`. -/
def row_le (a b : Row) : Bool := decide (sort_key_lex a ≤ sort_key_lex b)

/-- `sorted(data, key=self.sort_key)`: a stable sort by `sort_key`,
modelled by the stable `List.mergeSort`. -/
def sort_step (rows : List Row) : List Row := rows.mergeSort row_le

theorem row_le_trans : ∀ a b c : Row, row_le a b → row_le b c → row_le a c := by
  intro a b c hab hbc
  simp only [row_le, decide_eq_true_eq] at *
  exact le_trans hab hbc

theorem row_le_total : ∀ a b : Row, row_le a b || row_le b a := by
  intro a b
  simp only [row_le, Bool.or_eq_true, decide_eq_true_eq]
  exact le_total _ _

/-- `MusicSorter.process_csv` (reduced to its data flow): fails on an
empty input or when the required `artist` column is missing from the first
row; otherwise returns the output header (`data[0].keys()`) and the sorted
rows. -/
def process_csv (rows : List Row) : Option (List String × List Row) :=
  match rows with
  | [] => none
  | r0 :: _ =>
    if "artist" ∈ r0.fieldnames then some (r0.fieldnames, sort_step rows)
    else none

end MusicSorter

/-- C3: The sort step is idempotent: sorting the already-sorted list with
the sort key (lowercased artist, empty-album flag, lowercased album,
lowercased track) yields exactly the same sequence of rows as sorting
once. -/
theorem sort_step_idempotent (rows : List Row) :
    MusicSorter.sort_step (MusicSorter.sort_step rows) = MusicSorter.sort_step rows := by
  apply List.mergeSort_of_sorted
  exact List.sorted_mergeSort MusicSorter.row_le_trans MusicSorter.row_le_total rows

/-- C4: Whenever the sort step produces an output, the output rows are a
permutation of the input rows (same row count, each row's fields
unchanged) and the output header equals the column list of the input's
first row, i.e. the input header. -/
theorem sort_step_preserves_rows (rows : List Row) (hdr : List String)
    (out : List Row) (h : MusicSorter.process_csv rows = some (hdr, out)) :
    out.Perm rows ∧ out.length = rows.length ∧
      ∃ r0, rows.head? = some r0 ∧ hdr = r0.fieldnames := by
  match rows, h with
  | r0 :: rest, h =>
    simp only [MusicSorter.process_csv] at h
    split at h
    · cases h
      refine ⟨List.mergeSort_perm _ _, ?_, r0, rfl, rfl⟩
      exact (List.mergeSort_perm _ _).length_eq
    · cases h

/-- Witness for C4 at the one-row input `[("artist", "a")]`. -/
theorem sort_step_preserves_rows_witness :
    ([([("artist", "a")] : Row)] : List Row).Perm [[("artist", "a")]] ∧
      ([([("artist", "a")] : Row)] : List Row).length = 1 ∧
      ∃ r0 : Row, ([([("artist", "a")] : Row)] : List Row).head? = some r0 ∧
        ["artist"] = r0.fieldnames := by
  have h : MusicSorter.process_csv [[("artist", "a")]] =
      some (["artist"], [[("artist", "a")]]) := by
    simp [MusicSorter.process_csv, MusicSorter.sort_step, Row.fieldnames]
  simpa using sort_step_preserves_rows [[("artist", "a")]] ["artist"]
    [[("artist", "a")]] h

theorem sort_key_fst (r : Row) :
    (MusicSorter.sort_key r).1 = pyLower (pyStrip (r.get "artist")) := rfl

theorem sort_key_has_album (r : Row) :
    (MusicSorter.sort_key r).2.1 = if pyStrip (r.get "album") ≠ "" then 0 else 1 := rfl

/-- C9: In the sorted output, empty albums come last within each artist:
if positions `i < j` agree on the artist key (stripped, lowercased) and
position `i` has a whitespace-only album field, then so does position
`j`. -/
theorem empty_albums_last (rows : List Row) (i j : Nat) (hij : i < j)
    (hj : j < (MusicSorter.sort_step rows).length)
    (hartist : pyLower (pyStrip (((MusicSorter.sort_step rows).getD i []).get "artist"))
      = pyLower (pyStrip (((MusicSorter.sort_step rows).getD j []).get "artist")))
    (hempty : pyStrip (((MusicSorter.sort_step rows).getD i []).get "album") = "") :
    pyStrip (((MusicSorter.sort_step rows).getD j []).get "album") = "" := by
  have hi : i < (MusicSorter.sort_step rows).length := lt_trans hij hj
  have hdi : (MusicSorter.sort_step rows).getD i [] = (MusicSorter.sort_step rows)[i] := by
    simp [List.getElem?_eq_getElem hi]
  have hdj : (MusicSorter.sort_step rows).getD j [] = (MusicSorter.sort_step rows)[j] := by
    simp [List.getElem?_eq_getElem hj]
  rw [hdi] at hartist hempty
  rw [hdj] at hartist ⊢
  set a := (MusicSorter.sort_step rows)[i] with ha
  set b := (MusicSorter.sort_step rows)[j] with hb
  have hpw : (MusicSorter.sort_step rows).Pairwise (fun x y => MusicSorter.row_le x y) :=
    List.sorted_mergeSort MusicSorter.row_le_trans MusicSorter.row_le_total rows
  have hle : MusicSorter.row_le a b := by
    exact List.pairwise_iff_getElem.mp hpw i j hi hj hij
  have hlex : MusicSorter.sort_key_lex a ≤ MusicSorter.sort_key_lex b := by
    simpa [MusicSorter.row_le] using hle
  have hfst : (MusicSorter.sort_key a).1 = (MusicSorter.sort_key b).1 := by
    rw [sort_key_fst, sort_key_fst]; exact hartist
  rcases (Prod.Lex.le_iff _ _).mp hlex with hlt | ⟨_, hrest⟩
  · exact absurd (hfst ▸ hlt) (lt_irrefl _)
  · rcases (Prod.Lex.le_iff _ _).mp hrest with hlt2 | ⟨heq2, _⟩
    · by_contra hne
      have hbv : (MusicSorter.sort_key b).2.1 = 0 := by
        rw [sort_key_has_album]; simp [hne]
      have hav : (MusicSorter.sort_key a).2.1 = 1 := by
        rw [sort_key_has_album]; simp [hempty]
      rw [hav, hbv] at hlt2
      exact absurd hlt2 (by decide)
    · by_contra hne
      have hbv : (MusicSorter.sort_key b).2.1 = 0 := by
        rw [sort_key_has_album]; simp [hne]
      have hav : (MusicSorter.sort_key a).2.1 = 1 := by
        rw [sort_key_has_album]; simp [hempty]
      rw [hav, hbv] at heq2
      exact absurd heq2 (by decide)

theorem perm_pair_same {α : Type} {a : α} {l : List α} (h : l.Perm [a, a]) :
    l = [a, a] := by
  have hlen := h.length_eq
  match l, hlen with
  | [x, y], _ =>
    have hx : x ∈ [a, a] := h.mem_iff.mp (by simp)
    have hy : y ∈ [a, a] := h.mem_iff.mp (by simp)
    simp only [List.mem_cons, List.not_mem_nil, or_false] at hx hy
    rcases hx with hx | hx <;> rcases hy with hy | hy <;>
      simp_all

/-- Witness for C9 at a concrete two-row input. -/
theorem empty_albums_last_witness :
    pyStrip (((MusicSorter.sort_step
      [[("artist", "a"), ("album", "")], [("artist", "a"), ("album", "")]]).getD 1 []).get
        "album") = "" := by
  have hs : MusicSorter.sort_step
      [[("artist", "a"), ("album", "")], [("artist", "a"), ("album", "")]]
      = [[("artist", "a"), ("album", "")], [("artist", "a"), ("album", "")]] :=
    perm_pair_same (List.mergeSort_perm _ _)
  apply empty_albums_last _ 0 1 (by decide)
  · rw [hs]; decide
  · rw [hs]; rfl
  · rw [hs]; decide

namespace StudioAlbumFinder

/-!
`StudioAlbumFinder.py`: `process_entry` looks up a studio album for one
CSV row and `process_csv` folds it over the rows, tallying successes and
failures.  The MusicBrainz search result is passed in explicitly:
`search_musicbrainz_for_studio_album` returns either a non-empty album
title or `None`, and any exception it would raise is caught by
`process_entry`'s own handler with the same effect as `None` (tally one
failure, return the row unchanged), so the lookup outcome seen by
`process_entry` is an `Option String`.
-/

/-- The result of `process_entry`: the (possibly updated) row plus the
deltas it adds to the `successful_lookups` / `failed_lookups` tallies. -/
structure EntryResult where
  result : Row
  successful : Nat
  failed : Nat
deriving DecidableEq

/-- `StudioAlbumFinder.process_entry`: keep all original data
(`entry.copy()`), skip rows with missing track/artist, otherwise combine
the looked-up studio album with any existing album value; on a failed
lookup (exception or no result, `studio_lookup = none`) the row is
returned unchanged and the failure tally is incremented. -/
def process_entry (entry : Row) (studio_lookup : Option String) : EntryResult :=
  let track := pyStrip (entry.get "track")
  let artist := pyStrip (entry.get "artist")
  let existing_album := pyStrip (entry.get "album")
  if track = "" ∨ artist = "" then ⟨entry, 0, 0⟩
  else
    match studio_lookup with
    | some studio_album =>
      if studio_album ≠ "" then
        if existing_album ≠ "" then
          if pyLower studio_album ≠ pyLower existing_album then
            ⟨entry.set "album" (existing_album ++ " / " ++ studio_album), 1, 0⟩
          else ⟨entry.set "album" existing_album, 1, 0⟩
        else ⟨entry.set "album" studio_album, 1, 0⟩
      else ⟨entry, 0, 1⟩
    | none => ⟨entry, 0, 1⟩

/-- How one iteration of the `process_csv` loop behaves for its row:
either `process_entry` runs to completion having observed `lookup` from
the search, or an exception escapes `process_entry` and the loop's own
`except` handler appends the original entry and tallies a failure.
(`KeyboardInterrupt`, which truncates the batch, is outside the claims
modelled here.) -/
inductive RowEvent where
  | ok (lookup : Option String)
  | raised
deriving DecidableEq

/-- Accumulated state of the `process_csv` loop: the `enhanced_data` list
and the two tallies. -/
structure CsvResult where
  output : List Row
  successful : Nat
  failed : Nat
deriving DecidableEq

/-- One iteration of the `process_csv` loop body. -/
def process_csv_step (acc : CsvResult) (p : Row × RowEvent) : CsvResult :=
  match p.2 with
  | .ok lookup =>
    let r := process_entry p.1 lookup
    ⟨acc.output ++ [r.result], acc.successful + r.successful, acc.failed + r.failed⟩
  | .raised => ⟨acc.output ++ [p.1], acc.successful, acc.failed + 1⟩

/-- `StudioAlbumFinder.process_csv`'s enrichment loop over the input rows
(file handling aside), paired with each row's loop event. -/
def process_csv (rows : List (Row × RowEvent)) : CsvResult :=
  rows.foldl process_csv_step ⟨[], 0, 0⟩

/-- The row appended to `enhanced_data` for one input row. -/
def row_result : Row × RowEvent → Row
  | (entry, .ok lookup) => (process_entry entry lookup).result
  | (entry, .raised) => entry

/-- The `successful_lookups` delta contributed by one input row. -/
def row_successful : Row × RowEvent → Nat
  | (entry, .ok lookup) => (process_entry entry lookup).successful
  | (_, .raised) => 0

/-- The `failed_lookups` delta contributed by one input row. -/
def row_failed : Row × RowEvent → Nat
  | (entry, .ok lookup) => (process_entry entry lookup).failed
  | (_, .raised) => 1

theorem process_csv_step_eq (acc : CsvResult) (p : Row × RowEvent) :
    process_csv_step acc p =
      ⟨acc.output ++ [row_result p], acc.successful + row_successful p,
        acc.failed + row_failed p⟩ := by
  match p with
  | (entry, .ok lookup) => rfl
  | (entry, .raised) => rfl

theorem process_csv_foldl (rows : List (Row × RowEvent)) (acc : CsvResult) :
    rows.foldl process_csv_step acc =
      ⟨acc.output ++ rows.map row_result,
        acc.successful + (rows.map row_successful).sum,
        acc.failed + (rows.map row_failed).sum⟩ := by
  induction rows generalizing acc with
  | nil => simp
  | cons p rest ih =>
    simp only [List.foldl_cons, List.map_cons, List.sum_cons]
    rw [process_csv_step_eq, ih]
    simp [List.append_assoc, Nat.add_assoc]

/-- `process_csv` processes every row independently: the output is the
per-row results in order and the tallies are the per-row deltas summed. -/
theorem process_csv_spec (rows : List (Row × RowEvent)) :
    process_csv rows =
      ⟨rows.map row_result, (rows.map row_successful).sum,
        (rows.map row_failed).sum⟩ := by
  have h := process_csv_foldl rows ⟨[], 0, 0⟩
  simpa [process_csv] using h

end StudioAlbumFinder

/-- C1: For every CSV row whose studio-album lookup fails (the search
raises or returns no result), the studio-album step returns that row
unchanged, increments the failure tally by exactly one, and still appends
the row to the output; every other output row is the per-row function of
its own input row alone, so no field of any other row is affected. -/
theorem studio_failed_lookup_row_unchanged
    (rows : List (Row × StudioAlbumFinder.RowEvent)) (i : Nat) (hi : i < rows.length)
    (ht : pyStrip ((rows[i].1).get "track") ≠ "")
    (ha : pyStrip ((rows[i].1).get "artist") ≠ "")
    (hfail : rows[i].2 = .ok none) :
    (StudioAlbumFinder.process_csv rows).output = rows.map StudioAlbumFinder.row_result ∧
      (StudioAlbumFinder.process_csv rows).failed
        = (rows.map StudioAlbumFinder.row_failed).sum ∧
      StudioAlbumFinder.row_result rows[i] = rows[i].1 ∧
      StudioAlbumFinder.row_failed rows[i] = 1 := by
  refine ⟨by rw [StudioAlbumFinder.process_csv_spec], by rw [StudioAlbumFinder.process_csv_spec], ?_, ?_⟩
  · match hp : rows[i], hfail with
    | (entry, _), hfail =>
      simp only at hfail
      subst hfail
      simp only [StudioAlbumFinder.row_result, StudioAlbumFinder.process_entry]
      rw [if_neg]
      simp [ht, ha, hp] at *
      tauto
  · match hp : rows[i], hfail with
    | (entry, _), hfail =>
      simp only at hfail
      subst hfail
      simp only [StudioAlbumFinder.row_failed, StudioAlbumFinder.process_entry]
      rw [if_neg]
      simp [ht, ha, hp] at *
      tauto

/-- Witness for C1: a one-row batch whose lookup returns no result. -/
theorem studio_failed_lookup_row_unchanged_witness :
    (StudioAlbumFinder.process_csv [(([("track", "t"), ("artist", "a")] : Row),
        StudioAlbumFinder.RowEvent.ok none)]).output
      = [(([("track", "t"), ("artist", "a")] : Row), StudioAlbumFinder.RowEvent.ok none)].map
          StudioAlbumFinder.row_result ∧
    (StudioAlbumFinder.process_csv [(([("track", "t"), ("artist", "a")] : Row),
        StudioAlbumFinder.RowEvent.ok none)]).failed
      = ([(([("track", "t"), ("artist", "a")] : Row), StudioAlbumFinder.RowEvent.ok none)].map
          StudioAlbumFinder.row_failed).sum ∧
    StudioAlbumFinder.row_result (([("track", "t"), ("artist", "a")] : Row),
        StudioAlbumFinder.RowEvent.ok none) = [("track", "t"), ("artist", "a")] ∧
    StudioAlbumFinder.row_failed (([("track", "t"), ("artist", "a")] : Row),
        StudioAlbumFinder.RowEvent.ok none) = 1 := by
  simpa using studio_failed_lookup_row_unchanged
    [(([("track", "t"), ("artist", "a")] : Row), StudioAlbumFinder.RowEvent.ok none)]
    0 (by decide) (by decide) (by decide) rfl

namespace YoutubePlaylistToSpotify

/-!
`YoutubePlaylistToSpotify.py`: `can_find_song_on_spotify` searches Spotify
for one song title and, on a hit, adds it to the playlist;
`add_songs_to_spotify_playlist` loops over the songs collecting the titles
that could not be found.  Neither function contains a `try`/`except`, so
an exception raised by the Spotify client propagates out of the loop.  The
per-song behaviour of the Spotify client is passed in as an explicit
outcome.
-/

/-- What the Spotify client does for one song: the search (or the
subsequent `playlist_add_items`) raises, or the search returns a track,
or it returns no items. -/
inductive SpotifyOutcome where
  | raises
  | found
  | notFound
deriving DecidableEq

/-- `can_find_song_on_spotify`: `True` when the search returned a track
(which is then added), `False` otherwise; a client exception propagates
(`Except.error`). -/
def can_find_song_on_spotify : SpotifyOutcome → Except Unit Bool
  | .raises => .error ()
  | .found => .ok true
  | .notFound => .ok false

/-- `add_songs_to_spotify_playlist`: fold over the songs, appending the
not-found titles to `failed_songs`.  Returns the `failed_songs` list
(`none` when an exception aborted the loop) and the number of songs the
loop actually processed before returning. -/
def add_songs_to_spotify_playlist :
    List (String × SpotifyOutcome) → Option (List String) × Nat
  | [] => (some [], 0)
  | (song, o) :: rest =>
    match can_find_song_on_spotify o with
    | .error _ => (none, 1)
    | .ok true =>
      let r := add_songs_to_spotify_playlist rest
      (r.1, r.2 + 1)
    | .ok false =>
      let r := add_songs_to_spotify_playlist rest
      (r.1.map (fun l => song :: l), r.2 + 1)

end YoutubePlaylistToSpotify

/-- Counterexample to C2: in the Spotify importer, an exception while
searching for the first song aborts the batch; the second song is never
processed and no `failed_songs` list is produced. -/
theorem spotify_exception_aborts_batch :
    YoutubePlaylistToSpotify.add_songs_to_spotify_playlist
        [("a", .raises), ("b", .notFound)] = (none, 1) ∧
      (YoutubePlaylistToSpotify.add_songs_to_spotify_playlist
        [("a", .raises), ("b", .notFound)]).2
        ≠ [("a", YoutubePlaylistToSpotify.SpotifyOutcome.raises),
           ("b", YoutubePlaylistToSpotify.SpotifyOutcome.notFound)].length := by
  constructor
  · rfl
  · decide

/-- C2 (amended): in the aggregate-metadata scripts a per-row exception is
caught and the batch continues, every row contributing its own output row;
in the Spotify importer the loop survives only search misses (which are
recorded in `failed_songs`): when no outcome raises, every song is
processed and the not-found titles are returned in order, but a raised
exception aborts the remaining songs (previous theorem). -/
theorem per_row_failure_policy :
    (∀ rows : List (Row × StudioAlbumFinder.RowEvent),
        (StudioAlbumFinder.process_csv rows).output
          = rows.map StudioAlbumFinder.row_result) ∧
    ∀ songs : List (String × YoutubePlaylistToSpotify.SpotifyOutcome),
      (∀ p ∈ songs, p.2 ≠ YoutubePlaylistToSpotify.SpotifyOutcome.raises) →
      YoutubePlaylistToSpotify.add_songs_to_spotify_playlist songs
        = (some ((songs.filter
              (fun p => decide (p.2 = YoutubePlaylistToSpotify.SpotifyOutcome.notFound))).map
            Prod.fst),
           songs.length) := by
  constructor
  · intro rows
    rw [StudioAlbumFinder.process_csv_spec]
  · intro songs h
    induction songs with
    | nil => rfl
    | cons p rest ih =>
      match p with
      | (song, o) =>
        have ho : o ≠ YoutubePlaylistToSpotify.SpotifyOutcome.raises :=
          h (song, o) (List.mem_cons_self _ _)
        have hrest := ih (fun q hq => h q (List.mem_cons_of_mem _ hq))
        cases o with
        | raises => exact absurd rfl ho
        | found =>
          simp only [YoutubePlaylistToSpotify.add_songs_to_spotify_playlist,
            YoutubePlaylistToSpotify.can_find_song_on_spotify, hrest]
          simp [List.filter_cons]
        | notFound =>
          simp only [YoutubePlaylistToSpotify.add_songs_to_spotify_playlist,
            YoutubePlaylistToSpotify.can_find_song_on_spotify, hrest]
          simp [List.filter_cons]

/-- Witness for C2 (amended) at concrete inputs. -/
theorem per_row_failure_policy_witness :
    (StudioAlbumFinder.process_csv [(([("track", "t"), ("artist", "a")] : Row),
        StudioAlbumFinder.RowEvent.raised)]).output
      = [(([("track", "t"), ("artist", "a")] : Row), StudioAlbumFinder.RowEvent.raised)].map
          StudioAlbumFinder.row_result ∧
    YoutubePlaylistToSpotify.add_songs_to_spotify_playlist
        [("x", .found), ("y", .notFound)] = (some ["y"], 2) := by
  constructor
  · exact per_row_failure_policy.1 _
  · have h := per_row_failure_policy.2 [("x", .found), ("y", .notFound)] (by decide)
    simpa using h

/-- `pat` is a prefix of `s` (character lists). -/
def listStartsWith : List Char → List Char → Bool
  | _, [] => true
  | [], _ :: _ => false
  | x :: s, y :: p => x = y && listStartsWith s p

/-- Python's substring test `pat in s` on character lists. -/
def listContainsSub : List Char → List Char → Bool
  | [], pat => pat.isEmpty
  | x :: s, pat => listStartsWith (x :: s) pat || listContainsSub s pat

/-- Python's substring test `sub in s`. -/
def strContains (s sub : String) : Bool :=
  listContainsSub s.toList sub.toList

/-- Value of a non-empty all-digit character list. -/
def digitsToNat? (l : List Char) : Option Nat :=
  if l ≠ [] ∧ l.all Char.isDigit then
    some (l.foldl (fun a c => 10 * a + (c.toNat - 48)) 0)
  else none

/-- Python `int(s)` on the strings fed to it here: surrounding whitespace
is stripped, an optional sign is allowed, and anything non-numeric fails
(the call sites wrap the call in `try`/`except`).  (CPython also accepts
underscore digit grouping, which no date string uses.) -/
def pyInt? (s : String) : Option Int :=
  match pyStripL s.toList with
  | '+' :: ds => (digitsToNat? ds).map (fun n => (n : Int))
  | '-' :: ds => (digitsToNat? ds).map (fun n => -(n : Int))
  | ds => (digitsToNat? ds).map (fun n => (n : Int))

namespace MetadataEnhancer

/-!
`MetadataEnhancer.py`: `find_best_release` scores each candidate release
returned by a MusicBrainz search and returns the highest-scoring one
(Python's stable `sort` with `reverse=True`, then the first element).
-/

/-- The fields of one MusicBrainz release dict that `find_best_release`
reads: `title`, `release-group.primary-type`, `date`, `country` (each
defaulting to `''` when absent). -/
structure Release where
  title : String
  primary_type : String
  date : String
  country : String
deriving DecidableEq

/-- The score `find_best_release` assigns to one release: primary-type
points, title-keyword points, release-year points (`int(date[:4])` under
`try`/`except`), and country points. -/
def score_release (r : Release) : Int :=
  let title := pyLower r.title
  let primary_type := pyLower r.primary_type
  (if primary_type = "album" then 20
   else if primary_type = "ep" ∨ primary_type = "single" then 5
   else if primary_type = "compilation" then -10 else 0)
  + (if ¬ strContains title "live" then 10 else 0)
  + (if ¬ strContains title "compilation" ∧ ¬ strContains title "greatest hits" then 8
     else 0)
  + (if ¬ strContains title "best of" ∧ ¬ strContains title "collection" then 5 else 0)
  + (if ¬ strContains title "remix" ∧ ¬ strContains title "demo"
        ∧ ¬ strContains title "bootleg" then 3
     else 0)
  + (if r.date ≠ "" ∧ 4 ≤ r.date.toList.length then
       match pyInt? (r.date.toList.take 4).asString with
       | some year =>
         (if 1960 ≤ year ∧ year ≤ 2025 then 2 else 0)
           + (if 1970 ≤ year ∧ primary_type = "album" then 1 else 0)
       | none => 0
     else 0)
  + (if r.country ∈ ["US", "GB", "DE", "JP", "CA", "AU"] then 1 else 0)

/-- The comparison behind `scored_releases.sort(key=lambda x: x[0],
reverse=True)`: descending by score, stable. -/
def score_desc (a b : Int × Release) : Bool := decide (b.1 ≤ a.1)

/-- `MetadataEnhancer.find_best_release`: score the candidates, sort
descending by score (stably), return the first; `None` on an empty list.
The final `return releases[0]` fallback of the source is kept although it
is unreachable for a non-empty list. -/
def find_best_release (releases : List Release) : Option Release :=
  match releases with
  | [] => none
  | r :: rest =>
    let scored := (r :: rest).map (fun x => (score_release x, x))
    match scored.mergeSort score_desc with
    | [] => some r
    | best :: _ => some best.2

theorem score_desc_trans :
    ∀ a b c : Int × Release, score_desc a b → score_desc b c → score_desc a c := by
  intro a b c hab hbc
  simp only [score_desc, decide_eq_true_eq] at *
  exact le_trans hbc hab

theorem score_desc_total : ∀ a b : Int × Release, score_desc a b || score_desc b a := by
  intro a b
  simp only [score_desc, Bool.or_eq_true, decide_eq_true_eq]
  exact le_total _ _

end MetadataEnhancer

/-- C6: For every non-empty list of candidate releases the picker returns
an element of the input list whose heuristic score is maximal among all
candidates; for an empty list it returns no result. -/
theorem find_best_release_picks_max :
    MetadataEnhancer.find_best_release [] = none ∧
    ∀ releases : List MetadataEnhancer.Release, releases ≠ [] →
      ∃ best ∈ releases, MetadataEnhancer.find_best_release releases = some best ∧
        ∀ x ∈ releases,
          MetadataEnhancer.score_release x ≤ MetadataEnhancer.score_release best := by
  refine ⟨rfl, ?_⟩
  intro releases hne
  match releases, hne with
  | r :: rest, _ =>
    set scored := (r :: rest).map (fun x => (MetadataEnhancer.score_release x, x)) with hscored
    have hperm := List.mergeSort_perm scored MetadataEnhancer.score_desc
    match hs : scored.mergeSort MetadataEnhancer.score_desc with
    | [] =>
      exfalso
      have := hperm.length_eq
      rw [hs] at this
      simp [hscored] at this
    | best :: t =>
      have hbest_mem : best ∈ scored := by
        have : best ∈ scored.mergeSort MetadataEnhancer.score_desc := by
          rw [hs]; exact List.mem_cons_self _ _
        exact List.mem_mergeSort.mp this
      have hbest_shape : ∃ y ∈ r :: rest,
          (MetadataEnhancer.score_release y, y) = best := by
        rw [hscored] at hbest_mem
        exact List.mem_map.mp hbest_mem
      obtain ⟨y, hy_mem, hy_eq⟩ := hbest_shape
      have hbest2 : best.2 = y := by rw [← hy_eq]
      have hbest1 : best.1 = MetadataEnhancer.score_release y := by rw [← hy_eq]
      have hsorted : (scored.mergeSort MetadataEnhancer.score_desc).Pairwise
          (fun a b => MetadataEnhancer.score_desc a b) :=
        List.sorted_mergeSort MetadataEnhancer.score_desc_trans
          MetadataEnhancer.score_desc_total scored
      rw [hs] at hsorted
      have hmax : ∀ z ∈ t, z.1 ≤ best.1 := by
        intro z hz
        have := (List.pairwise_cons.mp hsorted).1 z hz
        simpa [MetadataEnhancer.score_desc] using this
      refine ⟨best.2, by rw [hbest2]; exact hy_mem, ?_, ?_⟩
      · simp only [MetadataEnhancer.find_best_release]
        rw [← hscored, hs]
      · intro x hx
        have hx_scored : (MetadataEnhancer.score_release x, x) ∈ scored := by
          rw [hscored]; exact List.mem_map_of_mem _ hx
        have hx_sorted : (MetadataEnhancer.score_release x, x)
            ∈ scored.mergeSort MetadataEnhancer.score_desc :=
          List.mem_mergeSort.mpr hx_scored
        rw [hs] at hx_sorted
        rcases List.mem_cons.mp hx_sorted with heq | hmem
        · rw [hbest2, ← hbest1, ← heq]
        · have := hmax _ hmem
          rw [hbest2, ← hbest1]
          exact this

/-- Witness for C6 at a concrete one-candidate list. -/
theorem find_best_release_picks_max_witness :
    ∃ best ∈ [MetadataEnhancer.Release.mk "x" "album" "1999" "US"],
      MetadataEnhancer.find_best_release
          [MetadataEnhancer.Release.mk "x" "album" "1999" "US"] = some best ∧
        ∀ x ∈ [MetadataEnhancer.Release.mk "x" "album" "1999" "US"],
          MetadataEnhancer.score_release x ≤ MetadataEnhancer.score_release best :=
  find_best_release_picks_max.2 _ (List.cons_ne_nil _ _)

namespace YoutubeMusicProcessor

/-- `youtube_music_processor.MetadataEnhancer.is_english_content`: at
least 70% of all characters must have a code point below 256.  The Python
comparison `latin_chars >= (total_chars * 0.7)` is modelled by the exact
inequality `10 * latin_chars ≥ 7 * total_chars`; at the inputs the
theorems below evaluate, the double rounding of `total_chars * 0.7`
cannot move the bound across an integer. -/
def is_english_content (text : String) : Bool :=
  if text = "" then false
  else
    let latin_chars := (text.toList.filter (fun c => c.toNat < 256)).length
    let total_chars := text.toList.length
    decide (10 * latin_chars ≥ 7 * total_chars)

end YoutubeMusicProcessor

namespace MusicPipeline

/-- `music_pipeline.MetadataEnhancer.is_english_content`: the characters
with code point below 256 must be at least as many as the rest (at least
50%). -/
def is_english_content (text : String) : Bool :=
  if text = "" then false
  else
    let latin_chars := (text.toList.filter (fun c => c.toNat < 256)).length
    let non_latin_chars := text.toList.length - latin_chars
    decide (latin_chars ≥ non_latin_chars)

end MusicPipeline

/-- Counterexample to C10: on `"aaa日本"` (three Latin characters out of
five) the 70% variant rejects while the 50% variant accepts, so the two
predicates are not equivalent. -/
theorem english_content_variants_disagree :
    YoutubeMusicProcessor.is_english_content "aaa日本" = false ∧
      MusicPipeline.is_english_content "aaa日本" = true ∧
      YoutubeMusicProcessor.is_english_content "aaa日本"
        ≠ MusicPipeline.is_english_content "aaa日本" := by
  refine ⟨by decide, by decide, by decide⟩

/-- C10 (amended): the 70% variant implies the 50% variant — every string
accepted by `youtube_music_processor`'s predicate is accepted by
`music_pipeline`'s — but the converse fails (previous theorem), so the
two are not equivalent. -/
theorem english_content_70_implies_50 (s : String)
    (h : YoutubeMusicProcessor.is_english_content s = true) :
    MusicPipeline.is_english_content s = true := by
  by_cases hs : s = ""
  · simp [YoutubeMusicProcessor.is_english_content, hs] at h
  · simp only [YoutubeMusicProcessor.is_english_content, if_neg hs,
      decide_eq_true_eq] at h
    simp only [MusicPipeline.is_english_content, if_neg hs, decide_eq_true_eq]
    have hle : (s.toList.filter (fun c => c.toNat < 256)).length ≤ s.toList.length :=
      List.length_filter_le _ _
    omega

/-- Witness for C10 (amended) at `"ab"`. -/
theorem english_content_70_implies_50_witness :
    MusicPipeline.is_english_content "ab" = true :=
  english_content_70_implies_50 "ab" (by decide)

namespace StudioAlbumFinder

/-!
Request-level model of `search_musicbrainz_for_studio_album`: for each of
the two base URLs (HTTPS, then the HTTP fallback) the `try` block issues a
release-group query and — unless it produced a usable result — a recording
query; an exception skips the rest of the block and moves to the next base
URL.  What each HTTP GET would do is passed in explicitly, and the model
counts the requests actually issued.
-/

/-- One HTTP GET's behaviour: `raises` (the request or `response.json()`
raised), or a response where `ok` is `status_code == 200` and `found` is
the usable result parsed from the body, if any (release-group query: the
non-empty `title` of the first release group; recording query: the first
studio-album release-group title the scan accepts). -/
inductive MBResponse where
  | raises
  | resp (ok : Bool) (found : Option String)
deriving DecidableEq

/-- One base URL's `try` block: release-group query `rg`, then — without a
usable result — recording query `rec`.  Returns the album found (if any)
and the number of HTTP requests issued. -/
def try_base_url (rg rec : MBResponse) : Option String × Nat :=
  match rg with
  | .raises => (none, 1)
  | .resp ok found =>
    match ok, found with
    | true, some a => (some a, 1)
    | _, _ =>
      match rec with
      | .raises => (none, 2)
      | .resp ok2 found2 =>
        match ok2, found2 with
        | true, some a => (some a, 2)
        | _, _ => (none, 2)

/-- `search_musicbrainz_for_studio_album` for one row, given the four
potential requests' behaviours in issue order (HTTPS release-group, HTTPS
recording, HTTP release-group, HTTP recording): the result and the number
of HTTP requests issued. -/
def search_musicbrainz_for_studio_album
    (https_rg https_rec http_rg http_rec : MBResponse) : Option String × Nat :=
  match try_base_url https_rg https_rec with
  | (some a, n) => (some a, n)
  | (none, n) =>
    let r := try_base_url http_rg http_rec
    (r.1, n + r.2)

theorem try_base_url_count_le (rg rec : MBResponse) : (try_base_url rg rec).2 ≤ 2 := by
  rcases rg with _ | ⟨ok, found⟩
  · simp [try_base_url]
  · rcases rec with _ | ⟨ok2, found2⟩
    · rcases ok <;> rcases found with _ | a <;> simp [try_base_url]
    · rcases ok <;> rcases found with _ | a <;> rcases ok2 <;>
        rcases found2 with _ | b <;> simp [try_base_url]

end StudioAlbumFinder

/-- Counterexample to C7: when the first (HTTPS release-group) request
returns 200 with no usable result, the code re-attempts via the second
query form and then via the HTTP fallback base URL, issuing four requests
for that row — not at most one. -/
theorem studio_search_issues_four_requests :
    StudioAlbumFinder.search_musicbrainz_for_studio_album
        (.resp true none) (.resp true none) (.resp true none) (.resp true none)
      = (none, 4) ∧
      ¬ ((StudioAlbumFinder.search_musicbrainz_for_studio_album
        (.resp true none) (.resp true none) (.resp true none) (.resp true none)).2 ≤ 1) := by
  exact ⟨rfl, by decide⟩

/-- C7 (amended): per input row the studio-album search issues at most
four HTTP requests — for each of the two base URLs a release-group query
and, when it yields no usable result, a recording query — and stops at the
first success, so a usable first response means exactly one request.
(The shared client `music_utils.MusicBrainzAPI._make_request` likewise
retries once against the HTTP fallback base URL.) -/
theorem studio_search_request_bound :
    (∀ r1 r2 r3 r4 : StudioAlbumFinder.MBResponse,
      (StudioAlbumFinder.search_musicbrainz_for_studio_album r1 r2 r3 r4).2 ≤ 4) ∧
    ∀ (r2 r3 r4 : StudioAlbumFinder.MBResponse) (a : String),
      StudioAlbumFinder.search_musicbrainz_for_studio_album
        (.resp true (some a)) r2 r3 r4 = (some a, 1) := by
  constructor
  · intro r1 r2 r3 r4
    have h1 := StudioAlbumFinder.try_base_url_count_le r1 r2
    have h2 := StudioAlbumFinder.try_base_url_count_le r3 r4
    simp only [StudioAlbumFinder.search_musicbrainz_for_studio_album]
    match hr : StudioAlbumFinder.try_base_url r1 r2 with
    | (some a, n) =>
      rw [hr] at h1
      exact le_trans h1 (by decide)
    | (none, n) =>
      rw [hr] at h1
      simpa using Nat.add_le_add h1 h2
  · intro r2 r3 r4 a
    rfl

/-- Witness for C7 (amended) at concrete responses. -/
theorem studio_search_request_bound_witness :
    (StudioAlbumFinder.search_musicbrainz_for_studio_album
        .raises .raises .raises .raises).2 ≤ 4 ∧
      StudioAlbumFinder.search_musicbrainz_for_studio_album
        (.resp true (some "X")) .raises .raises .raises = (some "X", 1) :=
  ⟨studio_search_request_bound.1 .raises .raises .raises .raises,
   studio_search_request_bound.2 .raises .raises .raises "X"⟩

namespace MusicBrainzAPI

/-!
`music_utils.MusicBrainzAPI` (same logic in
`youtube_music_processor.MusicBrainzAPI._rate_limit`): `_rate_limit_request`
sleeps the remainder of the configured delay and records
`last_request_time`; `_make_request` then tries the HTTPS base URL and, if
that attempt fails, immediately tries the HTTP fallback.  Clock values are
rationals; everything except `time.sleep` and the failed attempt's own
duration is instantaneous in the model.
-/

/-- The duration `_rate_limit_request` sleeps when called at clock `now`
with the given recorded `last` request time. -/
def sleep_amount (rate_limit last now : ℚ) : ℚ :=
  if now - last < rate_limit then rate_limit - (now - last) else 0

/-- `_rate_limit_request` run at clock `now`: after sleeping it records
`last_request_time = time.time()`, the clock when the sleep ends, which is
also the instant the caller issues its first HTTP attempt. -/
def rate_limit_request (rate_limit last now : ℚ) : ℚ :=
  now + sleep_amount rate_limit last now

/-- `_make_request` run at clock `now`: the times of the HTTP attempts it
issues, and the new recorded `last_request_time`.  When the HTTPS attempt
fails after `fail_duration`, the HTTP fallback attempt follows with no
further delay. -/
def make_request_times (rate_limit last now fail_duration : ℚ)
    (https_fails : Bool) : List ℚ × ℚ :=
  let t0 := rate_limit_request rate_limit last now
  (if https_fails then [t0, t0 + fail_duration] else [t0], t0)

end MusicBrainzAPI

/-- Counterexample to C8: with rate limit 1, previous request recorded at
0 and `_make_request` called at 1/2 whose HTTPS attempt fails instantly,
the two consecutive HTTP requests are issued at times 1 and 1 — the gap
between them is 0, less than the rate limit. -/
theorem fallback_attempt_gap_below_rate_limit :
    (MusicBrainzAPI.make_request_times 1 0 (1/2) 0 true).1 = [1, 1] ∧
      (1 : ℚ) - 1 < 1 := by
  constructor
  · simp [MusicBrainzAPI.make_request_times, MusicBrainzAPI.rate_limit_request,
      MusicBrainzAPI.sleep_amount]
    norm_num
  · norm_num

/-- C8 (amended): when less than `rate_limit` has passed since the
recorded previous request, `_rate_limit_request` sleeps exactly the
remaining difference, and the first HTTP attempt of each `_make_request`
call is issued at least `rate_limit` after the previously recorded
request time — but within one `_make_request` the HTTP fallback attempt
can follow a failed HTTPS attempt with no delay (previous theorem). -/
theorem rate_limit_spacing (rate_limit last now : ℚ) :
    (now - last < rate_limit →
      MusicBrainzAPI.sleep_amount rate_limit last now = rate_limit - (now - last)) ∧
    last + rate_limit ≤ MusicBrainzAPI.rate_limit_request rate_limit last now ∧
    ∀ (fail_duration : ℚ) (https_fails : Bool) (now2 : ℚ),
      (MusicBrainzAPI.make_request_times rate_limit last now fail_duration
          https_fails).2 + rate_limit
        ≤ MusicBrainzAPI.rate_limit_request rate_limit
            (MusicBrainzAPI.make_request_times rate_limit last now fail_duration
              https_fails).2 now2 := by
  have key : ∀ l n : ℚ, l + rate_limit ≤ MusicBrainzAPI.rate_limit_request rate_limit l n := by
    intro l n
    simp only [MusicBrainzAPI.rate_limit_request, MusicBrainzAPI.sleep_amount]
    split
    · linarith
    · rename_i hge
      push_neg at hge
      linarith
  refine ⟨?_, key last now, ?_⟩
  · intro h
    simp [MusicBrainzAPI.sleep_amount, h]
  · intro fail_duration https_fails now2
    exact key _ now2

/-- Witness for C8 (amended) at concrete clock values. -/
theorem rate_limit_spacing_witness :
    MusicBrainzAPI.sleep_amount 1 0 (1/2) = 1 - ((1/2 : ℚ) - 0) ∧
      (0 : ℚ) + 1 ≤ MusicBrainzAPI.rate_limit_request 1 0 (1/2) :=
  ⟨(rate_limit_spacing 1 0 (1/2)).1 (by norm_num),
   (rate_limit_spacing 1 0 (1/2)).2.1⟩

namespace MetadataEnhancer

/-!
`MetadataEnhancer.clean_title`: applies `re.sub(pattern, '', title,
flags=re.IGNORECASE)` for each artifact pattern in order, collapses
whitespace runs (`re.sub(r'\s+', ' ')`), strips, then normalizes hyphen
separators (`re.sub(r'\s*-\s*', ' - ')`).  The patterns use only literal
characters, one optional character (`Lyrics?`) and the non-greedy `.*?`
before a literal, so they are embedded as atom lists and matched by a
small backtracking matcher with CPython's leftmost / non-greedy / 'dot
does not match newline' semantics.  Recursive matchers take a fuel
argument; every call site passes fuel that exceeds the measure
(pattern length + input length) that each step strictly decreases, so the
fuel never runs out.
-/

/-- One atom of a title-cleanup regex: a literal character (matched
case-insensitively under `re.IGNORECASE`; `Char.toLower` folds ASCII,
which covers every cased letter the patterns contain), an optional
character (`s?`, greedy), or `.*?` (non-greedy, `.` not matching a
newline). -/
inductive PatAtom where
  | lit (c : Char)
  | opt (c : Char)
  | ng
deriving DecidableEq

/-- Case-insensitive character comparison (`re.IGNORECASE`). -/
def ciEq (c x : Char) : Bool := c.toLower = x.toLower

/-- Match a pattern at the start of `s`; returns the unmatched suffix of
the shortest match (non-greedy `.*?`, greedy `?`, leftmost overall by the
caller's scan). -/
def matchFrom : Nat → List PatAtom → List Char → Option (List Char)
  | 0, _, _ => none
  | _ + 1, [], s => some s
  | _ + 1, .lit _ :: _, [] => none
  | fuel + 1, .lit c :: ps, x :: s =>
    if ciEq c x then matchFrom fuel ps s else none
  | fuel + 1, .opt _ :: ps, [] => matchFrom fuel ps []
  | fuel + 1, .opt c :: ps, x :: s =>
    if ciEq c x then
      match matchFrom fuel ps s with
      | some r => some r
      | none => matchFrom fuel ps (x :: s)
    else matchFrom fuel ps (x :: s)
  | fuel + 1, .ng :: ps, s =>
    match matchFrom fuel ps s with
    | some r => some r
    | none =>
      match s with
      | [] => none
      | x :: s2 => if x = '\n' then none else matchFrom fuel (.ng :: ps) s2

/-- `re.sub(pattern, '', s)`: scan left to right, removing each leftmost
match and continuing after it.  Every pattern used here starts with a
literal, so matches are non-empty and each step consumes at least one
character. -/
def subAll : Nat → List PatAtom → List Char → List Char
  | 0, _, s => s
  | _ + 1, _, [] => []
  | fuel + 1, p, x :: s =>
    match matchFrom (p.length + s.length + 2) p (x :: s) with
    | some r => subAll fuel p r
    | none => x :: subAll fuel p s

/-- `re.sub(r'\s+', ' ', s)`: collapse each maximal whitespace run to a
single space. -/
def collapseWs : List Char → List Char
  | [] => []
  | [x] => if pySpace x then [' '] else [x]
  | x :: y :: s =>
    if pySpace x && pySpace y then collapseWs (y :: s)
    else (if pySpace x then ' ' else x) :: collapseWs (y :: s)

/-- `re.sub(r'\s*-\s*', ' - ', s)`: each leftmost run of whitespace, a
hyphen, and trailing whitespace becomes `" - "`. -/
def normSep : Nat → List Char → List Char
  | 0, s => s
  | _ + 1, [] => []
  | fuel + 1, x :: s =>
    if pySpace x || x = '-' then
      match List.dropWhile pySpace (x :: s) with
      | '-' :: a2 => ' ' :: '-' :: ' ' :: normSep fuel (List.dropWhile pySpace a2)
      | _ => x :: normSep fuel s
    else x :: normSep fuel s

/-- A sequence of case-insensitive literal atoms. -/
def lits (s : String) : List PatAtom := s.toList.map PatAtom.lit

/-- The `patterns_to_remove` list of `clean_title`, in source order.  The
"Japanese brackets" patterns are embedded with the exact characters the
source file contains (mojibake of the bracket characters:
`U+00E3 U+20AC`, `U+00E3 U+20AC U+2018`, `U+00E3 U+20AC U+0152`). -/
def patterns_to_remove : List (List PatAtom) :=
  [lits "[OFFICIAL" ++ [.ng] ++ lits "]",
   lits "(OFFICIAL" ++ [.ng] ++ lits ")",
   lits "[Official" ++ [.ng] ++ lits "]",
   lits "(Official" ++ [.ng] ++ lits ")",
   lits "[FULL" ++ [.ng] ++ lits "]",
   lits "(FULL" ++ [.ng] ++ lits ")",
   lits "[Full" ++ [.ng] ++ lits "]",
   lits "(Full" ++ [.ng] ++ lits ")",
   lits "[HD]", lits "(HD)", lits "[HQ]", lits "(HQ)",
   lits "[Lyric" ++ [.opt 's'] ++ lits "]",
   lits "(Lyric" ++ [.opt 's'] ++ lits ")",
   lits "[Official" ++ [.ng] ++ lits "Video]",
   lits "(Official" ++ [.ng] ++ lits "Video)",
   lits "[Music Video]", lits "(Music Video)",
   lits "[Audio]", lits "(Audio)",
   lits "ã€" ++ [.ng] ++ lits "ã€‘",
   lits "ã€Œ" ++ [.ng] ++ lits "ã€",
   lits "OFFICIAL VIDEO", lits "OFFICIAL MUSIC VIDEO", lits "MUSIC VIDEO",
   lits "LYRIC VIDEO", lits "OFFICIAL AUDIO", lits "OFFICIAL LYRIC VIDEO"]

/-- The artifact-removal loop of `clean_title`. -/
def remove_artifacts (s : List Char) : List Char :=
  patterns_to_remove.foldl (fun acc p => subAll (acc.length + 1) p acc) s

/-- The collapsed-and-stripped intermediate value of `clean_title`, after
`re.sub(r'\s+', ' ', cleaned).strip()` and before the separator pass. -/
def ws_normalized_stage (title : String) : List Char :=
  pyStripL (collapseWs (remove_artifacts title.toList))

/-- `MetadataEnhancer.clean_title`. -/
def clean_title (title : String) : String :=
  let cleaned := remove_artifacts title.toList
  let cleaned := pyStripL (collapseWs cleaned)
  (normSep (cleaned.length + 1) cleaned).asString

end MetadataEnhancer


theorem head?_dropWhile_not (p : Char → Bool) :
    ∀ (l : List Char) {c : Char}, (l.dropWhile p).head? = some c → p c = false := by
  intro l
  induction l with
  | nil => intro c hc; simp at hc
  | cons x xs ih =>
    intro c hc
    rw [List.dropWhile_cons] at hc
    split at hc
    · exact ih hc
    · rename_i hx
      simp only [List.head?_cons, Option.some.injEq] at hc
      subst hc
      exact Bool.eq_false_iff.mpr hx

theorem chain'_dropWhile {R : Char → Char → Prop} (p : Char → Bool) :
    ∀ l : List Char, List.Chain' R l → List.Chain' R (l.dropWhile p) := by
  intro l h
  induction l with
  | nil => simp
  | cons x xs ih =>
    rw [List.dropWhile_cons]
    split
    · exact ih h.tail
    · exact h

theorem collapseWs_space_eq :
    ∀ l : List Char, ∀ c ∈ MetadataEnhancer.collapseWs l, pySpace c → c = ' ' := by
  intro l
  induction l with
  | nil => intro c hc; simp [MetadataEnhancer.collapseWs] at hc
  | cons x rest ih =>
    intro c hc hsp
    cases rest with
    | nil =>
      simp only [MetadataEnhancer.collapseWs] at hc
      split at hc
      · simpa using hc
      · rename_i hx
        simp only [List.mem_singleton] at hc
        subst hc
        exact absurd hsp hx
    | cons y rs =>
      simp only [MetadataEnhancer.collapseWs] at hc
      split at hc
      · exact ih c hc hsp
      · rcases List.mem_cons.mp hc with h1 | h2
        · subst h1
          by_cases hx : pySpace x = true
          · simp [hx]
          · rw [if_neg hx] at hsp
            exact absurd hsp hx
        · exact ih c h2 hsp

theorem collapseWs_head :
    ∀ (rest : List Char) (y : Char),
      (MetadataEnhancer.collapseWs (y :: rest)).head?
        = some (if pySpace y then ' ' else y) := by
  intro rest
  induction rest with
  | nil =>
    intro y
    simp only [MetadataEnhancer.collapseWs]
    split <;> rfl
  | cons z rs ih =>
    intro y
    simp only [MetadataEnhancer.collapseWs]
    split
    · rename_i h
      rw [Bool.and_eq_true] at h
      rw [ih z]
      simp [h.1, h.2]
    · simp

theorem collapseWs_chain :
    ∀ l : List Char,
      List.Chain' (fun a b => ¬(pySpace a ∧ pySpace b))
        (MetadataEnhancer.collapseWs l) := by
  intro l
  induction l with
  | nil => simp [MetadataEnhancer.collapseWs]
  | cons x rest ih =>
    cases rest with
    | nil =>
      simp only [MetadataEnhancer.collapseWs]
      split <;> simp
    | cons y rs =>
      simp only [MetadataEnhancer.collapseWs]
      split
      · exact ih
      · rename_i hnot
        apply List.chain'_cons'.mpr
        refine ⟨?_, ih⟩
        intro b hb
        rw [collapseWs_head] at hb
        simp only [Option.mem_def, Option.some.injEq] at hb
        subst hb
        by_cases hx : pySpace x = true
        · have hy : pySpace y = false := by
            cases hyv : pySpace y
            · rfl
            · exact absurd (by simp [hx, hyv]) hnot
          simp [hx, hy]
        · simp [Bool.eq_false_iff.mpr hx]

theorem pyStripL_subset : ∀ (l : List Char), ∀ c ∈ pyStripL l, c ∈ l := by
  intro l c hc
  unfold pyStripL at hc
  rw [List.mem_reverse] at hc
  have h1 : c ∈ (l.dropWhile pySpace).reverse :=
    (List.dropWhile_sublist _).subset hc
  rw [List.mem_reverse] at h1
  exact (List.dropWhile_sublist _).subset h1

theorem pyStripL_chain
    {l : List Char}
    (h : List.Chain' (fun a b => ¬(pySpace a ∧ pySpace b)) l) :
    List.Chain' (fun a b => ¬(pySpace a ∧ pySpace b)) (pyStripL l) := by
  have hsymm : ∀ a b : Char,
      (fun a b => ¬(pySpace a ∧ pySpace b)) a b →
        (flip fun a b => ¬(pySpace a ∧ pySpace b)) a b := by
    intro a b hab hc
    exact hab ⟨hc.2, hc.1⟩
  unfold pyStripL
  apply List.chain'_reverse.mpr
  apply List.Chain'.imp hsymm
  apply chain'_dropWhile
  apply List.chain'_reverse.mpr
  apply List.Chain'.imp hsymm
  exact chain'_dropWhile _ _ h

theorem pyStripL_head_not_space (l : List Char) {c : Char}
    (h : (pyStripL l).head? = some c) : pySpace c = false := by
  unfold pyStripL at h
  rw [List.head?_reverse] at h
  obtain ⟨t, ht⟩ :=
    List.dropWhile_suffix (l := (l.dropWhile pySpace).reverse) pySpace
  have hgl : (t ++ ((l.dropWhile pySpace).reverse.dropWhile pySpace)).getLast?
      = some c := by
    rw [List.getLast?_append, h]
    rfl
  rw [ht, List.getLast?_reverse] at hgl
  exact head?_dropWhile_not pySpace l hgl

theorem pyStripL_last_not_space (l : List Char) {c : Char}
    (h : (pyStripL l).getLast? = some c) : pySpace c = false := by
  unfold pyStripL at h
  rw [List.getLast?_reverse] at h
  exact head?_dropWhile_not pySpace _ h

/-- Counterexample to C5: the output of `clean_title` is not always
whitespace-stripped — `"-Song"` cleans to `" - Song"`, which begins with a
space — and a listed artifact pattern can survive in the output:
`"[H(Audio)D]"` cleans to `"[HD]"`, which the `\[HD\]` pattern still
matches. -/
theorem clean_title_artifacts_remain :
    MetadataEnhancer.clean_title "-Song" = " - Song" ∧
      pyStrip (MetadataEnhancer.clean_title "-Song")
        ≠ MetadataEnhancer.clean_title "-Song" ∧
      MetadataEnhancer.clean_title "[H(Audio)D]" = "[HD]" ∧
      MetadataEnhancer.matchFrom 10 (MetadataEnhancer.lits "[HD]")
        (MetadataEnhancer.clean_title "[H(Audio)D]").toList = some [] := by
  refine ⟨by decide, by decide, by decide, by decide⟩

set_option maxHeartbeats 2000000 in
/-- C5 (amended): `clean_title "Song (Official Video)" = "Song"`; for
every title, the artifact-pattern substitutions are applied in the listed
order (all current occurrences of each pattern; a later removal can create
a new occurrence of an earlier pattern, which remains), then whitespace is
normalized: after that stage the string has no adjacent whitespace, every
whitespace character is a single ASCII space, and there is no leading or
trailing whitespace; the final hyphen-separator pass then runs on that
stage's value (and may reintroduce edge spaces, per the counterexample). -/
theorem clean_title_spec :
    MetadataEnhancer.clean_title "Song (Official Video)" = "Song" ∧
    (∀ title : String,
      MetadataEnhancer.clean_title title
        = (MetadataEnhancer.normSep
            ((MetadataEnhancer.ws_normalized_stage title).length + 1)
            (MetadataEnhancer.ws_normalized_stage title)).asString ∧
      MetadataEnhancer.ws_normalized_stage title
        = pyStripL (MetadataEnhancer.collapseWs
            (MetadataEnhancer.remove_artifacts title.toList))) ∧
    ∀ l : List Char,
      (∀ c ∈ pyStripL (MetadataEnhancer.collapseWs l), pySpace c → c = ' ') ∧
      List.Chain' (fun a b => ¬(pySpace a ∧ pySpace b))
        (pyStripL (MetadataEnhancer.collapseWs l)) ∧
      (∀ c, (pyStripL (MetadataEnhancer.collapseWs l)).head? = some c →
        pySpace c = false) ∧
      (∀ c, (pyStripL (MetadataEnhancer.collapseWs l)).getLast? = some c →
        pySpace c = false) := by
  refine ⟨by decide, ?_, ?_⟩
  · intro title
    exact ⟨rfl, rfl⟩
  · intro l
    refine ⟨?_, ?_, ?_, ?_⟩
    · intro c hc hsp
      exact collapseWs_space_eq _ c (pyStripL_subset _ c hc) hsp
    · exact pyStripL_chain (collapseWs_chain l)
    · intro c hc
      exact pyStripL_head_not_space _ hc
    · intro c hc
      exact pyStripL_last_not_space _ hc

/-- Witness for C5 (amended) at `"a b"` and the character `'a'`. -/
theorem clean_title_spec_witness :
    (MetadataEnhancer.clean_title "a b"
        = (MetadataEnhancer.normSep
            ((MetadataEnhancer.ws_normalized_stage "a b").length + 1)
            (MetadataEnhancer.ws_normalized_stage "a b")).asString ∧
      MetadataEnhancer.ws_normalized_stage "a b"
        = pyStripL (MetadataEnhancer.collapseWs
            (MetadataEnhancer.remove_artifacts "a b".toList))) ∧
      pySpace 'a' = false :=
  ⟨clean_title_spec.2.1 "a b",
   (clean_title_spec.2.2 (MetadataEnhancer.remove_artifacts "a b".toList)).2.2.1 'a'
     (by decide)⟩
